import Mathlib

/-!
Verification of the DNS message codec of `codecrafters-dns-server-rust`.

Bytes are modelled as natural numbers (values below 256 on real wire
buffers); machine-integer casts of the source (`as u8`, `as u16`,
`u16::from_be_bytes`, wrapping `u16` arithmetic) are made explicit with
`% 256`, `% 65536` and big-endian arithmetic.  Rust `String`s are
modelled by their UTF-8 byte lists, with the validity check of
`String::from_utf8` embedded as the executable predicate `utf8Valid`.
The decoding loop of `Name::try_from` in the source does not visibly
terminate (its pointer branch can fall through without advancing the
cursor), so it is embedded with an explicit fuel parameter: a `none`
result means the fuel ran out, and a divergence of the source loop is
rendered as `none` for every fuel value.
-/

namespace DnsCodec

/-- Error kinds of the codec, one constructor per `bail!`/`Err` site of
`common.rs` and `message.rs`. -/
inductive DnsError where
  | notEvenAnId
  | isResponse
  | truncatedLabel
  | illegalLabelLength (b : Nat)
  | noTerminator
  | invalidUtf8
  | emptyQuestion
  | truncatedQuestion
  | invalidQType (v : Nat)
  | invalidQClass (v : Nat)
  | unregisteredPointer (p : Nat)
  | compressWithPointer
deriving DecidableEq, Repr

instance {ε α : Type} [DecidableEq ε] [DecidableEq α] :
    DecidableEq (Except ε α) := fun a b =>
  match a, b with
  | .ok x, .ok y =>
    if h : x = y then isTrue (by rw [h]) else isFalse (fun hh => h (Except.ok.inj hh))
  | .error x, .error y =>
    if h : x = y then isTrue (by rw [h]) else isFalse (fun hh => h (Except.error.inj hh))
  | .ok _, .error _ => isFalse (fun hh => Except.noConfusion hh)
  | .error _, .ok _ => isFalse (fun hh => Except.noConfusion hh)

/-- The UTF-8 validity check performed by `String::from_utf8` in
`Name::try_from`, as a byte-at-a-time state machine: `pend` lists the
admissible ranges for the continuation bytes still owed by the current
multi-byte sequence (initial bytes `0xc2-0xdf` owe one continuation,
`0xe0-0xef` two with the first range narrowed for `0xe0`/`0xed`,
`0xf0-0xf4` three with the first range narrowed for `0xf0`/`0xf4`;
`0x80-0xc1` and `0xf5-0xff` are never legal initial bytes). -/
def utf8Aux : List (Nat × Nat) → List Nat → Bool
  | (lo, hi) :: pend, c :: rest => decide (lo ≤ c ∧ c ≤ hi) && utf8Aux pend rest
  | _ :: _, [] => false
  | [], [] => true
  | [], b :: rest =>
    if b ≤ 0x7f then utf8Aux [] rest
    else if 0xc2 ≤ b ∧ b ≤ 0xdf then utf8Aux [(0x80, 0xbf)] rest
    else if b = 0xe0 then utf8Aux [(0xa0, 0xbf), (0x80, 0xbf)] rest
    else if 0xe1 ≤ b ∧ b ≤ 0xec then utf8Aux [(0x80, 0xbf), (0x80, 0xbf)] rest
    else if b = 0xed then utf8Aux [(0x80, 0x9f), (0x80, 0xbf)] rest
    else if 0xee ≤ b ∧ b ≤ 0xef then utf8Aux [(0x80, 0xbf), (0x80, 0xbf)] rest
    else if b = 0xf0 then utf8Aux [(0x90, 0xbf), (0x80, 0xbf), (0x80, 0xbf)] rest
    else if 0xf1 ≤ b ∧ b ≤ 0xf3 then utf8Aux [(0x80, 0xbf), (0x80, 0xbf), (0x80, 0xbf)] rest
    else if b = 0xf4 then utf8Aux [(0x80, 0x8f), (0x80, 0xbf), (0x80, 0xbf)] rest
    else false

/-- Validity of a whole byte list as UTF-8 (`String::from_utf8`). -/
def utf8Valid (l : List Nat) : Bool :=
  utf8Aux [] l

/-- `Name` of `common.rs`: a label list (each label the UTF-8 bytes of a
Rust `String`) plus an optional compression pointer (`u16`). -/
structure Name where
  labels : List (List Nat)
  pointer : Option Nat
deriving DecidableEq, Repr

/-- Reference table of the decode side, `HashMap<u16, Vec<String>>`;
modelled as an association list where `insert` conses (the head is the
most recent binding, matching `HashMap::insert` overwrite semantics). -/
abbrev RefTable := List (Nat × List (List Nat))

/-- `HashMap::get` on the decode-side reference table. -/
def lookupRef (refs : RefTable) (k : Nat) : Option (List (List Nat)) :=
  (List.find? (fun e => e.1 = k) refs).map (fun e => e.2)

/-- The `while last_pos < length` loop of `Name::try_from`
(`common.rs`).  `fuel` counts remaining iterations; `none` means the
fuel was exhausted.  The source advances `last_pos` (here `lastPos`) in
the label branch only; in the pointer branch with no following byte it
falls through without advancing, which is rendered as a recursive call
with unchanged state. -/
def nameTryFromLoop (value : List Nat) : Nat → Nat → List (List Nat) →
    Option (Except DnsError Name)
  | 0, _, _ => none
  | fuel + 1, lastPos, labels =>
    match value[lastPos]? with
    | none => some (.error .noTerminator)
    | some b =>
      if b = 0 then some (.ok ⟨labels, none⟩)
      else if 0xc0 ≤ b then
        match value[lastPos + 1]? with
        | some lower => some (.ok ⟨labels, some ((b &&& 0x03) * 256 + lower)⟩)
        | none => nameTryFromLoop value fuel lastPos labels
      else if b < 64 then
        if value.length ≤ lastPos + 1 + b then some (.error .truncatedLabel)
        else
          let label := (value.drop (lastPos + 1)).take b
          if utf8Valid label then
            nameTryFromLoop value fuel (lastPos + 1 + b) (labels ++ [label])
          else some (.error .invalidUtf8)
      else some (.error (.illegalLabelLength b))

/-- `Name::try_from(&[u8])` of `common.rs`.  The fuel `value.length + 1`
is enough for every terminating run of the source loop, since every
iteration that continues the loop advances the cursor. -/
def Name.tryFrom (value : List Nat) : Option (Except DnsError Name) :=
  nameTryFromLoop value (value.length + 1) 0 []

/-- `Name::len` of `common.rs`. -/
def Name.len (n : Name) : Nat :=
  (n.labels.map (fun l => l.length + 1)).sum +
    (if n.pointer.isNone then 1 else 2)

/-- `Name::to_vec` of `common.rs`: each label as a length byte (`s.len()
as u8`) followed by its bytes, then either the terminator `0` or the
2-byte big-endian encoding of `0xc000 | ptr`. -/
def Name.to_vec (n : Name) : List Nat :=
  (n.labels.map (fun s => (s.length % 256) :: s)).flatten ++
    (match n.pointer with
     | some ptr => [(0xc000 ||| ptr % 65536) / 256, (0xc000 ||| ptr % 65536) % 256]
     | none => [0])

/-- `Name::expand` of `common.rs`. -/
def Name.expand (n : Name) (refs : RefTable) : Except DnsError Name :=
  match n.pointer with
  | some ptr =>
    match lookupRef refs ptr with
    | some suffix => .ok ⟨n.labels ++ suffix, none⟩
    | none => .error (.unregisteredPointer ptr)
  | none => .ok ⟨n.labels ++ [], none⟩

/-- Compression dictionary of the encode side,
`HashMap<Vec<String>, u16>`. -/
abbrev RefStore := List (List (List Nat) × Nat)

/-- `HashMap::get` on the encode-side dictionary. -/
def lookupStore (store : RefStore) (k : List (List Nat)) : Option Nat :=
  (List.find? (fun e => e.1 = k) store).map (fun e => e.2)

/-- The `for k in 0..self.labels.len()` loop of `Name::compress`: scan
the suffixes of the label list from longest to shortest, returning the
prefix consumed so far and the dictionary offset at the first hit. -/
def compressScan (store : RefStore) : List (List Nat) →
    Option (List (List Nat) × Nat)
  | [] => none
  | l :: rest =>
    match lookupStore store (l :: rest) with
    | some p => some ([], p)
    | none =>
      match compressScan store rest with
      | some (pre, p) => some (l :: pre, p)
      | none => none

/-- `Name::compress` of `common.rs`. -/
def Name.compress (n : Name) (store : RefStore) : Except DnsError Name :=
  if n.pointer.isSome then .error .compressWithPointer
  else
    match compressScan store n.labels with
    | some (pre, p) => .ok ⟨pre, some p⟩
    | none => .ok n

/-- `OpCode` of `common.rs`. -/
inductive OpCode where
  | Query
  | IQuery
  | Status
  | Reserved (v : Nat)
deriving DecidableEq, Repr

/-- `From<u8> for OpCode`. -/
def OpCode.ofNat (v : Nat) : OpCode :=
  match v with
  | 0 => .Query
  | 1 => .IQuery
  | 2 => .Status
  | other => .Reserved other

/-- `From<OpCode> for u8`. -/
def OpCode.toNat : OpCode → Nat
  | .Query => 0
  | .IQuery => 1
  | .Status => 2
  | .Reserved v => v

/-- `RRType` of `common.rs`. -/
inductive RRType where
  | A | NS | MD | MF | CNAME | SOA | MB | MG | MR | NULL
  | WKS | PTR | HINFO | MINFO | MX | TXT
deriving DecidableEq, Repr

/-- `TryFrom<u16> for RRType`. -/
def RRType.tryFrom (v : Nat) : Except DnsError RRType :=
  match v with
  | 1 => .ok .A
  | 2 => .ok .NS
  | 3 => .ok .MD
  | 4 => .ok .MF
  | 5 => .ok .CNAME
  | 6 => .ok .SOA
  | 7 => .ok .MB
  | 8 => .ok .MG
  | 9 => .ok .MR
  | 10 => .ok .NULL
  | 11 => .ok .WKS
  | 12 => .ok .PTR
  | 13 => .ok .HINFO
  | 14 => .ok .MINFO
  | 15 => .ok .MX
  | 16 => .ok .TXT
  | other => .error (.invalidQType other)

/-- `From<RRType> for u16`. -/
def RRType.toNat : RRType → Nat
  | .A => 1
  | .NS => 2
  | .MD => 3
  | .MF => 4
  | .CNAME => 5
  | .SOA => 6
  | .MB => 7
  | .MG => 8
  | .MR => 9
  | .NULL => 10
  | .WKS => 11
  | .PTR => 12
  | .HINFO => 13
  | .MINFO => 14
  | .MX => 15
  | .TXT => 16

/-- `QType` of `common.rs`. -/
inductive QType where
  | RRType (rr : RRType)
  | AXFR
  | MAILB
  | MAILA
  | ANY
deriving DecidableEq, Repr

/-- `TryFrom<u16> for QType`. -/
def QType.tryFrom (v : Nat) : Except DnsError QType :=
  match v with
  | 252 => .ok .AXFR
  | 253 => .ok .MAILB
  | 254 => .ok .MAILA
  | 255 => .ok .ANY
  | other =>
    match RRType.tryFrom other with
    | .ok res => .ok (.RRType res)
    | .error _ => .error (.invalidQType other)

/-- `From<QType> for u16`. -/
def QType.toNat : QType → Nat
  | .RRType rr => rr.toNat
  | .AXFR => 252
  | .MAILB => 253
  | .MAILA => 254
  | .ANY => 255

/-- `RRClass` of `common.rs`. -/
inductive RRClass where
  | IN | CS | CH | HS
deriving DecidableEq, Repr

/-- `TryFrom<u16> for RRClass`. -/
def RRClass.tryFrom (v : Nat) : Except DnsError RRClass :=
  match v with
  | 1 => .ok .IN
  | 2 => .ok .CS
  | 3 => .ok .CH
  | 4 => .ok .HS
  | other => .error (.invalidQClass other)

/-- `From<RRClass> for u16`. -/
def RRClass.toNat : RRClass → Nat
  | .IN => 1
  | .CS => 2
  | .CH => 3
  | .HS => 4

/-- `QClass` of `common.rs`. -/
inductive QClass where
  | RRClass (rr : RRClass)
  | ANY
deriving DecidableEq, Repr

/-- `TryFrom<u16> for QClass`. -/
def QClass.tryFrom (v : Nat) : Except DnsError QClass :=
  match v with
  | 255 => .ok .ANY
  | other =>
    match RRClass.tryFrom other with
    | .ok res => .ok (.RRClass res)
    | .error _ => .error (.invalidQClass other)

/-- `From<QClass> for u16`. -/
def QClass.toNat : QClass → Nat
  | .RRClass rr => rr.toNat
  | .ANY => 255

/-- `ResponseCode` of `common.rs`; `toNat` is the `as u8` discriminant
cast used when packing a response header. -/
inductive ResponseCode where
  | NoError
  | FormatError
  | ServerFailure
  | NameError
  | NotImplemented
  | Refused
  | Reserved
deriving DecidableEq, Repr

/-- Discriminant of `ResponseCode` (`value.response_code as u8`). -/
def ResponseCode.toNat : ResponseCode → Nat
  | .NoError => 0
  | .FormatError => 1
  | .ServerFailure => 2
  | .NameError => 3
  | .NotImplemented => 4
  | .Refused => 5
  | .Reserved => 6

/-- `Record` of `common.rs`. -/
structure Record where
  rrtype : RRType
  rrclass : RRClass
  data : List Nat
deriving DecidableEq, Repr

/-- `str::split('.')` of Rust on a UTF-8 byte list (the period byte is
46; it cannot occur inside a multi-byte UTF-8 sequence). -/
def splitDot : List Nat → List (List Nat)
  | [] => [[]]
  | b :: rest =>
    if b = 46 then [] :: splitDot rest
    else
      match splitDot rest with
      | [] => [[b]]
      | g :: gs => (b :: g) :: gs

/-- Rust `str::parse::<u8>()` on the bytes of a component: an optional
leading plus sign, then at least one ASCII digit, value at most 255. -/
def parseU8 (s : List Nat) : Option Nat :=
  let digits := match s with
    | 43 :: rest => rest
    | other => other
  if digits = [] then none
  else if digits.all (fun c => decide (48 ≤ c ∧ c ≤ 57)) then
    let v := digits.foldl (fun acc c => acc * 10 + (c - 48)) 0
    if v ≤ 255 then some v else none
  else none

/-- The `collect::<Result<Vec<_>, _>>()` of `Record::from_ip_v4`:
parse every component, failing as soon as one component fails. -/
def collectU8 : List (List Nat) → Option (List Nat)
  | [] => some []
  | c :: rest =>
    match parseU8 c, collectU8 rest with
    | some v, some vs => some (v :: vs)
    | _, _ => none

/-- `Record::from_ip_v4` of `common.rs`: split the text on periods,
parse every component as a `u8` (`collect` over `Result` fails if any
component fails), and build an A-type, IN-class record from the bytes. -/
def Record.from_ip_v4 (source : List Nat) : Option Record :=
  (collectU8 (splitDot source)).map
    (fun comps => { rrtype := .A, rrclass := .IN, data := comps })

/-- `Question` of `message.rs`. -/
structure Question where
  qname : Name
  qtype : QType
  qclass : QClass
deriving DecidableEq, Repr

/-- `Question::len` of `message.rs`. -/
def Question.len (q : Question) : Nat :=
  q.qname.len + 4

/-- `Question::expand` of `message.rs`. -/
def Question.expand (q : Question) (refs : RefTable) : Except DnsError Question :=
  match q.qname.expand refs with
  | .ok n => .ok { q with qname := n }
  | .error e => .error e

/-- `Question::compress` of `message.rs`. -/
def Question.compress (q : Question) (store : RefStore) : Except DnsError Question :=
  match q.qname.compress store with
  | .ok n => .ok { q with qname := n }
  | .error e => .error e

/-- `Question::to_vec` of `message.rs`. -/
def Question.to_vec (q : Question) : List Nat :=
  q.qname.to_vec ++
    [q.qtype.toNat % 65536 / 256, q.qtype.toNat % 256] ++
    [q.qclass.toNat % 65536 / 256, q.qclass.toNat % 256]

/-- `TryFrom<&[u8]> for Question` of `message.rs`.  `none` propagates a
diverging `Name::try_from`. -/
def Question.tryFrom (value : List Nat) : Option (Except DnsError Question) :=
  if value ≠ [] then
    match Name.tryFrom value with
    | none => none
    | some (.error e) => some (.error e)
    | some (.ok qname) =>
      let meta := qname.len
      if meta + 4 > value.length then some (.error .truncatedQuestion)
      else
        match QType.tryFrom (value.getD meta 0 * 256 + value.getD (meta + 1) 0) with
        | .error e => some (.error e)
        | .ok qtype =>
          match QClass.tryFrom (value.getD (meta + 2) 0 * 256 + value.getD (meta + 3) 0) with
          | .error e => some (.error e)
          | .ok qclass => some (.ok ⟨qname, qtype, qclass⟩)
  else some (.error .emptyQuestion)

/-- `Query` of `message.rs`.  The `dict` field exists on the struct but
is never populated by `Query::try_from` (which uses a local table). -/
structure Query where
  response_code : ResponseCode
  id : Nat
  opcode : OpCode
  truncation : Bool
  recursion_desired : Bool
  questions : List Question
  dict : RefTable
deriving DecidableEq, Repr

/-- `Query::new` of `message.rs`: defaults with `FormatError` set. -/
def Query.new : Query :=
  { response_code := .FormatError
    id := 0
    opcode := .Query
    truncation := false
    recursion_desired := false
    questions := []
    dict := [] }

/-- The `for start in 0..n_labels` registration loop of
`Query::try_from`: insert each suffix of the expanded label list at its
running `u16` offset (`HashMap::insert`, i.e. overwriting). -/
def regLoop : RefTable → List (List Nat) → Nat → Nat → RefTable
  | store, _, 0, _ => store
  | store, [], _ + 1, _ => store
  | store, l :: rest, n + 1, refPtr =>
    regLoop ((refPtr, l :: rest) :: store) rest n ((refPtr + (l.length + 1)) % 65536)

/-- The `while qdcount > 0` loop of `Query::try_from` (`message.rs`),
by recursion on the remaining question count.  `none` propagates a
diverging name decode. -/
def queryLoop (value : List Nat) : Nat → Nat → RefTable → Query →
    Option (Except DnsError Query)
  | 0, _, _, query =>
    some (.ok { query with
      response_code := match query.opcode with
        | .Query => .NoError
        | _ => .NotImplemented })
  | qd + 1, ptr, refStore, query =>
    if value.length ≤ ptr then some (.ok query)
    else
      match Question.tryFrom (value.drop ptr) with
      | none => none
      | some (.error _) => some (.ok query)
      | some (.ok question) =>
        let nLabels := question.qname.labels.length
        let delta := question.len
        match (if question.qname.pointer.isSome
               then question.expand refStore
               else .ok question) with
        | .error e => some (.error e)
        | .ok expanded =>
          let expandedLabels := expanded.qname.labels
          let refStore1 := regLoop refStore expandedLabels nLabels (ptr % 65536)
          let refStore2 := (ptr % 65536, expandedLabels) :: refStore1
          queryLoop value qd (ptr + delta) refStore2
            { query with questions := query.questions ++ [expanded] }

/-- `TryFrom<&[u8]> for Query` of `message.rs`.  The source bails with
`isResponse` inside the `value.len() > 2` block; that early return is
rendered here as a top-level condition, all other paths being
unchanged. -/
def Query.tryFrom (value : List Nat) : Option (Except DnsError Query) :=
  if value.length < 2 then some (.error .notEvenAnId)
  else if 2 < value.length ∧ Nat.land (value.getD 2 0) 0x80 ≠ 0 then
    some (.error .isResponse)
  else
    let q0 : Query := { Query.new with id := value.getD 0 0 * 256 + value.getD 1 0 }
    let q1 : Query :=
      if 2 < value.length then
        { q0 with
          opcode := OpCode.ofNat (Nat.land (value.getD 2 0 >>> 3) 0x0f)
          truncation := Nat.land (value.getD 2 0) 0x2 = 0x2
          recursion_desired := Nat.land (value.getD 2 0) 0x1 = 0x1 }
      else q0
    if 3 < value.length ∧ Nat.land (value.getD 3 0) 0xf0 ≠ 0 then some (.ok q1)
    else if value.length < 12 then some (.ok q1)
    else
      queryLoop value (value.getD 4 0 * 256 + value.getD 5 0) 12 [] q1

/-- `Answer` of `message.rs`. -/
structure Answer where
  name : Name
  record : Record
  ttl : Nat
deriving DecidableEq, Repr

/-- `Answer::compress` of `message.rs`. -/
def Answer.compress (a : Answer) (store : RefStore) : Except DnsError Answer :=
  match a.name.compress store with
  | .ok n => .ok { a with name := n }
  | .error e => .error e

/-- `Answer::to_vec` of `message.rs`. -/
def Answer.to_vec (a : Answer) : List Nat :=
  a.name.to_vec ++
    [a.record.rrtype.toNat % 65536 / 256, a.record.rrtype.toNat % 256] ++
    [a.record.rrclass.toNat % 65536 / 256, a.record.rrclass.toNat % 256] ++
    [a.ttl % 4294967296 / 16777216, a.ttl % 16777216 / 65536,
     a.ttl % 65536 / 256, a.ttl % 256] ++
    [a.record.data.length % 65536 / 256, a.record.data.length % 256] ++
    a.record.data

/-- `Response` of `message.rs`. -/
structure Response where
  id : Nat
  opcode : OpCode
  truncation : Bool
  authoritative_answer : Bool
  recursion_desired : Bool
  recursion_available : Bool
  response_code : ResponseCode
  questions : List Question
  answers : List Answer
deriving DecidableEq, Repr

/-- `Entry::Vacant` insertion of the encode loops in `message.rs`: bind
the key only if it is not already bound. -/
def insertIfVacant (store : RefStore) (k : List (List Nat)) (v : Nat) : RefStore :=
  match lookupStore store k with
  | none => (k, v) :: store
  | some _ => store

/-- The suffix registration loop shared by the question and answer
encode loops of `From<Response> for Vec<u8>`: register every suffix of
the original label list at its running `u16` offset, first occurrence
winning. -/
def registerVacant : RefStore → List (List Nat) → Nat → RefStore
  | store, [], _ => store
  | store, l :: rest, refPtr =>
    registerVacant (insertIfVacant store (l :: rest) refPtr) rest
      ((refPtr + (l.length + 1)) % 65536)

/-- The `for question in value.questions` loop of
`From<Response> for Vec<u8>`; `none` models the `unwrap` panic when a
question name already carries a pointer. -/
def encodeQuestions : List Question → RefStore → Nat →
    Option (List Nat × RefStore × Nat)
  | [], store, ptr => some ([], store, ptr)
  | q :: rest, store, ptr =>
    match q.compress store with
    | .error _ => none
    | .ok cq =>
      let compressed := cq.to_vec
      let store1 := registerVacant store q.qname.labels ptr
      let ptr1 := (ptr + compressed.length) % 65536
      match encodeQuestions rest store1 ptr1 with
      | none => none
      | some (bytes, s, p) => some (compressed ++ bytes, s, p)

/-- The `for answer in value.answers` loop of
`From<Response> for Vec<u8>`. -/
def encodeAnswers : List Answer → RefStore → Nat →
    Option (List Nat × RefStore × Nat)
  | [], store, ptr => some ([], store, ptr)
  | a :: rest, store, ptr =>
    match a.compress store with
    | .error _ => none
    | .ok ca =>
      let compressed := ca.to_vec
      let store1 := registerVacant store a.name.labels ptr
      let ptr1 := (ptr + compressed.length) % 65536
      match encodeAnswers rest store1 ptr1 with
      | none => none
      | some (bytes, s, p) => some (compressed ++ bytes, s, p)

/-- The 12 header bytes written by `From<Response> for Vec<u8>`:
id big-endian, flag bytes with the response bit forced, big-endian
question and answer counts (`as u16` casts made explicit), and zero
authority and additional counts. -/
def responseHeader (r : Response) : List Nat :=
  [r.id / 256 % 256, r.id % 256,
   0x80 ||| ((r.opcode.toNat % 256) <<< 3) % 256 |||
     (if r.authoritative_answer then 4 else 0) |||
     (if r.truncation then 2 else 0) |||
     (if r.recursion_desired then 1 else 0),
   (if r.recursion_available then 0x80 else 0) ||| r.response_code.toNat,
   r.questions.length % 65536 / 256, r.questions.length % 65536 % 256,
   r.answers.length % 65536 / 256, r.answers.length % 65536 % 256,
   0, 0,
   0, 0]

/-- `From<Response> for Vec<u8>` of `message.rs`: the 12-byte header,
then the questions and answers encoded against one shared compression
dictionary with a running cursor starting at 12. -/
def encodeResponse (r : Response) : Option (List Nat) :=
  match encodeQuestions r.questions [] 12 with
  | none => none
  | some (qbytes, store, ptr) =>
    match encodeAnswers r.answers store ptr with
    | none => none
    | some (abytes, _, _) => some (responseHeader r ++ qbytes ++ abytes)

/-! ## Helper lemmas -/

/-- Pure ASCII byte lists pass the `String::from_utf8` validity check. -/
theorem utf8Valid_of_ascii : ∀ l : List Nat, (∀ b ∈ l, b ≤ 0x7f) → utf8Valid l = true := by
  intro l
  induction l with
  | nil => intro _; rfl
  | cons b rest ih =>
    intro h
    have hb : b ≤ 0x7f := h b (List.mem_cons_self b rest)
    show utf8Aux [] (b :: rest) = true
    rw [utf8Aux, if_pos hb]
    exact ih (fun x hx => h x (List.mem_cons_of_mem b hx))

/-! ## C1: pointer payload mask -/

/-- C1: the claim says a 2-byte input `[b0, b1]` with `b0 ≥ 0xc0` decodes
to the pointer `(b0 & 0x3f) * 256 + b1` (14-bit payload, top 2 bits of
the pair masked off).  The code instead masks the upper byte with
`0x03`: on `[0xc4, 0x00]` it yields pointer `0`, while the claimed
formula yields `1024` — and the type's own encoder writes pointer `1024`
as exactly these two bytes, so decode contradicts encode. -/
theorem c1_pointer_mask_is_0x03 :
    Name.tryFrom [0xc4, 0x00] = some (.ok ⟨[], some 0⟩) ∧
    Name.to_vec ⟨[], some 1024⟩ = [0xc4, 0x00] ∧
    (0xc4 &&& 0x3f) * 256 + 0 = 1024 := by
  refine ⟨by decide, by decide, by decide⟩

/-! ## C2: termination of Name decoding -/

/-- C2: the claim says `Name::try_from` terminates on every input, in
particular on a buffer whose last remaining byte is `≥ 0xc0` with no
second pointer byte.  On the one-byte buffer `[0xc0]` the decode loop
never returns for any amount of fuel: that branch neither returns nor
advances the cursor, so the source loop runs forever. -/
theorem c2_name_decode_no_fuel_suffices :
    (∀ fuel labels, nameTryFromLoop [0xc0] fuel 0 labels = none) ∧
    Name.tryFrom [0xc0] = none := by
  constructor
  · intro fuel
    induction fuel with
    | zero => intro labels; rfl
    | succ n ih => intro labels; exact ih labels
  · rfl

/-! ## C4: from_ip_v4 component count -/

/-- C4 counterexample: the claim says `from_ip_v4` fails when there are
not exactly four period-separated components, but the code performs no
component-count check: the three-component input `"1.2.3"` succeeds and
produces a three-byte record. -/
theorem c4_three_components_accepted :
    Record.from_ip_v4 [49, 46, 50, 46, 51] =
      some { rrtype := .A, rrclass := .IN, data := [1, 2, 3] } ∧
    (splitDot [49, 46, 50, 46, 51]).length = 3 := by
  refine ⟨by decide, by decide⟩

/-- C4 amended: `from_ip_v4` succeeds exactly when every
period-separated component parses as an unsigned byte 0–255 (no
component-count requirement), and then produces an A-type, IN-class
record whose data lists the parsed component values in order. -/
theorem c4_from_ip_v4_parses_all_components : ∀ source : List Nat,
    ((Record.from_ip_v4 source).isSome ↔
      ∀ c ∈ splitDot source, (parseU8 c).isSome) ∧
    (∀ r, Record.from_ip_v4 source = some r →
      r.rrtype = .A ∧ r.rrclass = .IN ∧
      r.data = (splitDot source).map (fun c => (parseU8 c).getD 0)) := by
  have key : ∀ comps : List (List Nat),
      ((collectU8 comps).isSome ↔ ∀ c ∈ comps, (parseU8 c).isSome) ∧
      (∀ vs, collectU8 comps = some vs →
        vs = comps.map (fun c => (parseU8 c).getD 0)) := by
    intro comps
    induction comps with
    | nil => exact ⟨by simp [collectU8], by intro vs h; simp [collectU8] at h; simp [h.symm]⟩
    | cons c rest ih =>
      constructor
      · simp only [collectU8, List.mem_cons]
        cases hc : parseU8 c with
        | none => simp [hc]
        | some v =>
          cases hr : collectU8 rest with
          | none =>
            simp only [Option.isSome_none, Bool.false_eq_true, false_iff, not_forall]
            have := ih.1
            rw [hr] at this
            simp only [Option.isSome_none, Bool.false_eq_true, false_iff, not_forall] at this
            obtain ⟨x, hx, hnx⟩ := this
            exact ⟨x, Or.inr hx, hnx⟩
          | some vs =>
            simp only [Option.isSome_some, true_iff]
            rintro x (rfl | hx)
            · simp [hc]
            · have := ih.1
              rw [hr] at this
              exact this.mp (by simp) x hx
      · intro vs h
        simp only [collectU8] at h
        cases hc : parseU8 c with
        | none => rw [hc] at h; exact absurd h (by simp)
        | some v =>
          rw [hc] at h
          cases hr : collectU8 rest with
          | none => rw [hr] at h; exact absurd h (by simp)
          | some ws =>
            rw [hr] at h
            simp only [Option.some.injEq] at h
            subst h
            simp [hc, ih.2 ws hr]
  intro source
  constructor
  · rw [Record.from_ip_v4]
    cases hc : collectU8 (splitDot source) with
    | none =>
      have hk := (key (splitDot source)).1
      rw [hc] at hk
      simpa using hk
    | some vs =>
      have hk := (key (splitDot source)).1
      rw [hc] at hk
      simpa using hk
  · intro r h
    rw [Record.from_ip_v4] at h
    cases hc : collectU8 (splitDot source) with
    | none => rw [hc] at h; exact absurd h (by simp)
    | some vs =>
      rw [hc] at h
      simp only [Option.map_some', Option.some.injEq] at h
      subst h
      exact ⟨rfl, rfl, (key (splitDot source)).2 vs hc⟩

/-- C4 witness: the amended characterization applied at the concrete
input `"1.2.3.4"`. -/
theorem c4_from_ip_v4_parses_all_components_witness :
    ∀ r, Record.from_ip_v4 [49, 46, 50, 46, 51, 46, 52] = some r →
      r.rrtype = .A ∧ r.rrclass = .IN ∧
      r.data = (splitDot [49, 46, 50, 46, 51, 46, 52]).map
        (fun c => (parseU8 c).getD 0) :=
  (c4_from_ip_v4_parses_all_components [49, 46, 50, 46, 51, 46, 52]).2

/-! ## C5: pointer-less round trip -/

/-- Main invariant of the decode loop on an encoded pointer-less name:
started at the boundary between an already-consumed prefix `pre` and the
encoding of the remaining labels `ls` (each nonempty, at most 63 bytes,
ASCII), with enough fuel, the loop returns the accumulated labels
followed by `ls`, with no pointer. -/
theorem nameTryFromLoop_roundtrip :
    ∀ (ls : List (List Nat)) (pre : List Nat) (acc : List (List Nat)) (fuel : Nat),
      (∀ l ∈ ls, 1 ≤ l.length ∧ l.length ≤ 63 ∧ ∀ b ∈ l, b ≤ 0x7f) →
      ls.length < fuel →
      nameTryFromLoop (pre ++ (ls.map (fun s => (s.length % 256) :: s)).flatten ++ [0])
        fuel pre.length acc = some (.ok ⟨acc ++ ls, none⟩) := by
  intro ls
  induction ls with
  | nil =>
    intro pre acc fuel _ hfuel
    obtain ⟨f, rfl⟩ : ∃ f, fuel = f + 1 := ⟨fuel - 1, by omega⟩
    have hget : (pre ++ [0] : List Nat)[pre.length]? = some 0 := by
      rw [List.getElem?_append_right (le_refl _)]
      simp
    simp [nameTryFromLoop, hget]
  | cons l rest ih =>
    intro pre acc fuel h hfuel
    obtain ⟨f, rfl⟩ : ∃ f, fuel = f + 1 := ⟨fuel - 1, by omega⟩
    obtain ⟨hl1, hl2, hl3⟩ := h l (List.mem_cons_self _ _)
    have hrest := fun x hx => h x (List.mem_cons_of_mem l hx)
    have hlen : l.length % 256 = l.length := Nat.mod_eq_of_lt (by omega)
    rw [List.map_cons, List.flatten_cons, hlen]
    have hassoc :
        pre ++ ((l.length :: l) ++ (rest.map (fun s => (s.length % 256) :: s)).flatten) ++ [0]
          = pre ++ l.length ::
              (l ++ ((rest.map (fun s => (s.length % 256) :: s)).flatten ++ [0])) := by
      simp
    rw [hassoc]
    set FR := (rest.map (fun s => (s.length % 256) :: s)).flatten with hFR
    set V := pre ++ l.length :: (l ++ (FR ++ [0])) with hV
    have hget : V[pre.length]? = some l.length := by
      rw [hV, List.getElem?_append_right (le_refl _)]
      simp
    have hVlen : V.length = pre.length + 1 + l.length + FR.length + 1 := by
      simp [hV]
      omega
    have hdrop : V.drop (pre.length + 1) = l ++ (FR ++ [0]) := by
      have : V = (pre ++ [l.length]) ++ (l ++ (FR ++ [0])) := by simp [hV]
      rw [this, List.drop_left' (by simp)]
    have htake : (l ++ (FR ++ [0])).take l.length = l := List.take_left l _
    have hutf : utf8Valid ((V.drop (pre.length + 1)).take l.length) = true := by
      rw [hdrop, htake]
      exact utf8Valid_of_ascii l hl3
    simp only [nameTryFromLoop, hget]
    rw [if_neg (by omega), if_neg (by omega), if_pos (by omega),
      if_neg (by omega), if_pos hutf, hdrop, htake]
    have hpre : (pre ++ l.length :: l).length = pre.length + 1 + l.length := by
      simp
      omega
    have happ : V = (pre ++ l.length :: l) ++ FR ++ [0] := by simp [hV]
    have := ih (pre ++ l.length :: l) (acc ++ [l]) f hrest (by simp at hfuel ⊢; omega)
    rw [hpre] at this
    rw [happ, this]
    simp

/-- C5 counterexample: the empty label is a printable-ASCII string of at
most 63 bytes, yet the pointer-less name with label list `[""]` does not
round-trip: its encoding is `[0, 0]`, which decodes to the empty label
list (the leading zero byte is read as the terminator). -/
theorem c5_empty_label_breaks_roundtrip :
    (∀ l ∈ Name.labels ⟨[[]], none⟩, l.length ≤ 63 ∧ ∀ b ∈ l, 0x20 ≤ b ∧ b ≤ 0x7e) ∧
    Name.pointer ⟨[[]], none⟩ = none ∧
    Name.tryFrom (Name.to_vec ⟨[[]], none⟩) = some (.ok ⟨[], none⟩) ∧
    (⟨[], none⟩ : Name) ≠ ⟨[[]], none⟩ := by
  refine ⟨by decide, rfl, by decide, by decide⟩

/-- C5 amended: for every pointer-less Name whose labels are NONEMPTY
printable-ASCII strings of 1 to 63 bytes, decoding its encoding
round-trips (`Name::try_from(name.to_vec())` succeeds and returns the
original name). -/
theorem c5_roundtrip_nonempty_labels : ∀ n : Name,
    n.pointer = none →
    (∀ l ∈ n.labels, 1 ≤ l.length ∧ l.length ≤ 63 ∧ ∀ b ∈ l, 0x20 ≤ b ∧ b ≤ 0x7e) →
    Name.tryFrom n.to_vec = some (.ok n) := by
  intro n hp h
  obtain ⟨labels, pointer⟩ := n
  simp only at hp
  subst hp
  have hbound : ∀ ls : List (List Nat),
      ls.length ≤ (ls.map (fun s : List Nat => (s.length % 256) :: s)).flatten.length := by
    intro ls
    induction ls with
    | nil => simp
    | cons x xs ihx =>
      simp only [List.map_cons, List.flatten_cons, List.length_append, List.length_cons]
      omega
  have hvec : Name.to_vec ⟨labels, none⟩
      = [] ++ (labels.map (fun s : List Nat => (s.length % 256) :: s)).flatten ++ [0] := by
    simp [Name.to_vec]
  have h' : ∀ l ∈ labels, 1 ≤ l.length ∧ l.length ≤ 63 ∧ ∀ b ∈ l, b ≤ 0x7f := by
    intro l hl
    obtain ⟨h1, h2, h3⟩ := h l hl
    exact ⟨h1, h2, fun b hb => by have := h3 b hb; omega⟩
  rw [Name.tryFrom, hvec]
  have := nameTryFromLoop_roundtrip labels [] []
    (([] ++ (labels.map (fun s : List Nat => (s.length % 256) :: s)).flatten ++ [0]).length + 1) h'
    (by
      simp only [List.nil_append, List.length_append, List.length_cons, List.length_nil]
      have := hbound labels
      omega)
  simpa using this

/-- C5 witness: the amended round trip applied to the concrete
single-label name `"a"`. -/
theorem c5_roundtrip_nonempty_labels_witness :
    Name.tryFrom (Name.to_vec ⟨[[97]], none⟩) = some (.ok ⟨[[97]], none⟩) :=
  c5_roundtrip_nonempty_labels ⟨[[97]], none⟩ rfl (by decide)

/-! ## C6: compress picks the longest registered suffix -/

/-- The suffix scan returns the prefix before `k` and the dictionary
offset when position `k` holds the first (longest) suffix found in the
dictionary. -/
theorem compressScan_of_first_hit :
    ∀ (labels : List (List Nat)) (store : RefStore) (k p : Nat),
      k < labels.length →
      lookupStore store (labels.drop k) = some p →
      (∀ j, j < k → lookupStore store (labels.drop j) = none) →
      compressScan store labels = some (labels.take k, p) := by
  intro labels
  induction labels with
  | nil => intro store k p hk _ _; simp at hk
  | cons l rest ih =>
    intro store k p hk hlook hnone
    cases k with
    | zero =>
      rw [List.drop_zero] at hlook
      simp [compressScan, hlook]
    | succ k' =>
      have h0 : lookupStore store (l :: rest) = none := by
        have := hnone 0 (Nat.succ_pos _)
        rwa [List.drop_zero] at this
      have hlook' : lookupStore store (rest.drop k') = some p := by
        rwa [List.drop_succ_cons] at hlook
      have hnone' : ∀ j, j < k' → lookupStore store (rest.drop j) = none := by
        intro j hj
        have := hnone (j + 1) (by omega)
        rwa [List.drop_succ_cons] at this
      have := ih store k' p (by simpa using hk) hlook' hnone'
      simp [compressScan, h0, this]

/-- The suffix scan fails when no nonempty suffix is in the dictionary. -/
theorem compressScan_of_no_hit :
    ∀ (labels : List (List Nat)) (store : RefStore),
      (∀ j, j < labels.length → lookupStore store (labels.drop j) = none) →
      compressScan store labels = none := by
  intro labels
  induction labels with
  | nil => intro store _; rfl
  | cons l rest ih =>
    intro store hnone
    have h0 : lookupStore store (l :: rest) = none := by
      have := hnone 0 (Nat.succ_pos _)
      rwa [List.drop_zero] at this
    have : compressScan store rest = none := by
      refine ih store (fun j hj => ?_)
      have := hnone (j + 1) (by simpa using hj)
      rwa [List.drop_succ_cons] at this
    simp [compressScan, h0, this]

/-- C6: `Name::compress` fails exactly on a name that already carries a
pointer; otherwise it scans the suffixes of the label list from longest
(the whole list) to shortest, and at the first suffix found in the
dictionary returns the remaining prefix as labels plus the dictionary's
offset as pointer; if no suffix is registered the name is returned
unchanged. -/
theorem c6_compress_first_longest_suffix : ∀ (n : Name) (store : RefStore),
    (n.pointer ≠ none → n.compress store = .error .compressWithPointer) ∧
    (n.pointer = none →
      (∀ k p, k < n.labels.length →
        lookupStore store (n.labels.drop k) = some p →
        (∀ j, j < k → lookupStore store (n.labels.drop j) = none) →
        n.compress store = .ok ⟨n.labels.take k, some p⟩) ∧
      ((∀ j, j < n.labels.length → lookupStore store (n.labels.drop j) = none) →
        n.compress store = .ok n)) := by
  intro n store
  constructor
  · intro hp
    rw [Name.compress, if_pos (Option.ne_none_iff_isSome.mp hp)]
  · intro hp
    have hneg : ¬ (n.pointer.isSome = true) := by simp [hp]
    constructor
    · intro k p hk hlook hnone
      rw [Name.compress, if_neg hneg, compressScan_of_first_hit n.labels store k p hk hlook hnone]
    · intro hnone
      rw [Name.compress, if_neg hneg, compressScan_of_no_hit n.labels store hnone]

/-- C6 witness: compressing the pointer-less single-label name `"a"`
against the empty dictionary returns it unchanged. -/
theorem c6_compress_first_longest_suffix_witness :
    Name.compress ⟨[[97]], none⟩ [] = .ok ⟨[[97]], none⟩ :=
  ((c6_compress_first_longest_suffix ⟨[[97]], none⟩ []).2 rfl).2 (fun _ _ => rfl)

/-! ## C7: header soft failures degrade to a FormatError Query -/

/-- C7: for every buffer of length at least 2 with the response bit
clear, if the Z field (top 4 bits of byte 3) is non-zero or the total
length is below 12, `Query::try_from` returns `Ok` with a
partially-populated Query — id always, opcode/TC/RD when byte 2 exists,
no questions — whose response code is `FormatError`. -/
theorem c7_header_soft_failures : ∀ value : List Nat,
    2 ≤ value.length →
    (2 < value.length → Nat.land (value.getD 2 0) 0x80 = 0) →
    ((3 < value.length ∧ Nat.land (value.getD 3 0) 0xf0 ≠ 0) ∨ value.length < 12) →
    ∃ q : Query,
      Query.tryFrom value = some (.ok q) ∧
      q.response_code = .FormatError ∧
      q.questions = [] ∧
      q.id = value.getD 0 0 * 256 + value.getD 1 0 ∧
      (2 < value.length →
        q.opcode = OpCode.ofNat (Nat.land (value.getD 2 0 >>> 3) 0x0f) ∧
        q.truncation = decide (Nat.land (value.getD 2 0) 0x2 = 0x2) ∧
        q.recursion_desired = decide (Nat.land (value.getD 2 0) 0x1 = 0x1)) := by
  intro value h2 hresp h3
  have hA : ¬ value.length < 2 := by omega
  have hB : ¬ (2 < value.length ∧ Nat.land (value.getD 2 0) 0x80 ≠ 0) := by
    rintro ⟨hgt, hbit⟩
    exact hbit (hresp hgt)
  by_cases hgt : 2 < value.length
  · refine ⟨{ Query.new with
        id := value.getD 0 0 * 256 + value.getD 1 0
        opcode := OpCode.ofNat (Nat.land (value.getD 2 0 >>> 3) 0x0f)
        truncation := decide (Nat.land (value.getD 2 0) 0x2 = 0x2)
        recursion_desired := decide (Nat.land (value.getD 2 0) 0x1 = 0x1) },
      ?_, rfl, rfl, rfl, fun _ => ⟨rfl, rfl, rfl⟩⟩
    simp only [Query.tryFrom, if_neg hA, if_neg hB, if_pos hgt]
    by_cases hz : 3 < value.length ∧ Nat.land (value.getD 3 0) 0xf0 ≠ 0
    · rw [if_pos hz]
    · rw [if_neg hz, if_pos (by tauto)]
  · refine ⟨{ Query.new with id := value.getD 0 0 * 256 + value.getD 1 0 },
      ?_, rfl, rfl, rfl, fun hh => absurd hh hgt⟩
    simp only [Query.tryFrom, if_neg hA, if_neg hB, if_neg hgt]
    rw [if_neg (by omega : ¬ (3 < value.length ∧ Nat.land (value.getD 3 0) 0xf0 ≠ 0)),
      if_pos (by omega : value.length < 12)]

/-- C7 witness: the short three-byte buffer `[0, 7, 0]` (length below
12, response bit clear) yields an `Ok` FormatError query with id 7. -/
theorem c7_header_soft_failures_witness :
    ∃ q : Query,
      Query.tryFrom [0, 7, 0] = some (.ok q) ∧
      q.response_code = .FormatError ∧
      q.questions = [] ∧
      q.id = List.getD [0, 7, 0] 0 0 * 256 + List.getD [0, 7, 0] 1 0 ∧
      (2 < List.length [0, 7, 0] →
        q.opcode = OpCode.ofNat (Nat.land (List.getD [0, 7, 0] 2 0 >>> 3) 0x0f) ∧
        q.truncation = decide (Nat.land (List.getD [0, 7, 0] 2 0) 0x2 = 0x2) ∧
        q.recursion_desired = decide (Nat.land (List.getD [0, 7, 0] 2 0) 0x1 = 0x1)) :=
  c7_header_soft_failures [0, 7, 0] (by decide) (fun _ => by decide) (Or.inr (by decide))

/-! ## C8: response header bytes -/

/-- A pointer-less name always compresses successfully. -/
theorem compress_ok_of_no_pointer (n : Name) (store : RefStore)
    (h : n.pointer = none) : ∃ m, n.compress store = .ok m := by
  rw [Name.compress, if_neg (by simp [h])]
  cases hscan : compressScan store n.labels with
  | none => exact ⟨n, rfl⟩
  | some pr => exact ⟨⟨pr.1, some pr.2⟩, by cases pr; rfl⟩

/-- A question whose name is pointer-free always compresses. -/
theorem question_compress_ok (q : Question) (store : RefStore)
    (h : q.qname.pointer = none) : ∃ cq, q.compress store = .ok cq := by
  obtain ⟨m, hm⟩ := compress_ok_of_no_pointer q.qname store h
  exact ⟨{ q with qname := m }, by rw [Question.compress, hm]⟩

/-- An answer whose name is pointer-free always compresses. -/
theorem answer_compress_ok (a : Answer) (store : RefStore)
    (h : a.name.pointer = none) : ∃ ca, a.compress store = .ok ca := by
  obtain ⟨m, hm⟩ := compress_ok_of_no_pointer a.name store h
  exact ⟨{ a with name := m }, by rw [Answer.compress, hm]⟩

/-- Unfolding of the question encode loop at a successfully compressed
head question. -/
theorem encodeQuestions_cons_of_ok {q cq : Question} {store : RefStore}
    (rest : List Question) (ptr : Nat) (h : q.compress store = .ok cq) :
    encodeQuestions (q :: rest) store ptr =
      match encodeQuestions rest (registerVacant store q.qname.labels ptr)
          ((ptr + cq.to_vec.length) % 65536) with
      | none => none
      | some (bytes, s, p) => some (cq.to_vec ++ bytes, s, p) := by
  conv_lhs => rw [encodeQuestions]
  rw [h]

/-- Unfolding of the answer encode loop at a successfully compressed
head answer. -/
theorem encodeAnswers_cons_of_ok {a ca : Answer} {store : RefStore}
    (rest : List Answer) (ptr : Nat) (h : a.compress store = .ok ca) :
    encodeAnswers (a :: rest) store ptr =
      match encodeAnswers rest (registerVacant store a.name.labels ptr)
          ((ptr + ca.to_vec.length) % 65536) with
      | none => none
      | some (bytes, s, p) => some (ca.to_vec ++ bytes, s, p) := by
  conv_lhs => rw [encodeAnswers]
  rw [h]

/-- The question encode loop never panics when every question name is
pointer-free. -/
theorem encodeQuestions_ok : ∀ (qs : List Question) (store : RefStore) (ptr : Nat),
    (∀ q ∈ qs, q.qname.pointer = none) →
    ∃ out, encodeQuestions qs store ptr = some out := by
  intro qs
  induction qs with
  | nil => intro store ptr _; exact ⟨([], store, ptr), rfl⟩
  | cons q rest ih =>
    intro store ptr h
    obtain ⟨cq, hcq⟩ := question_compress_ok q store (h q (List.mem_cons_self _ _))
    obtain ⟨⟨b, s, p⟩, hout⟩ :=
      ih (registerVacant store q.qname.labels ptr) ((ptr + cq.to_vec.length) % 65536)
        (fun x hx => h x (List.mem_cons_of_mem q hx))
    exact ⟨(cq.to_vec ++ b, s, p), by rw [encodeQuestions_cons_of_ok rest ptr hcq, hout]⟩

/-- The answer encode loop never panics when every answer name is
pointer-free. -/
theorem encodeAnswers_ok : ∀ (ans : List Answer) (store : RefStore) (ptr : Nat),
    (∀ a ∈ ans, a.name.pointer = none) →
    ∃ out, encodeAnswers ans store ptr = some out := by
  intro ans
  induction ans with
  | nil => intro store ptr _; exact ⟨([], store, ptr), rfl⟩
  | cons a rest ih =>
    intro store ptr h
    obtain ⟨ca, hca⟩ := answer_compress_ok a store (h a (List.mem_cons_self _ _))
    obtain ⟨⟨b, s, p⟩, hout⟩ :=
      ih (registerVacant store a.name.labels ptr) ((ptr + ca.to_vec.length) % 65536)
        (fun x hx => h x (List.mem_cons_of_mem a hx))
    exact ⟨(ca.to_vec ++ b, s, p), by rw [encodeAnswers_cons_of_ok rest ptr hca, hout]⟩

/-- Bit 7 survives further or-ing: if `a` has bit `0x80` set, so does
`a ||| b`. -/
theorem land_lor_bit7 (a b : Nat) (h : a &&& 0x80 = 0x80) :
    (a ||| b) &&& 0x80 = 0x80 := by
  apply Nat.eq_of_testBit_eq
  intro i
  have hb := congrArg (fun n => Nat.testBit n i) h
  simp only [Nat.testBit_and, Nat.testBit_or] at hb ⊢
  cases h8 : Nat.testBit 128 i with
  | false => simp [h8]
  | true =>
    rw [h8] at hb
    simp only [Bool.and_true] at hb
    simp [h8, hb]

/-- C8: every successfully encoded Response has the response bit of byte
2 set, question and answer counts as big-endian 16-bit integers in bytes
4-5 and 6-7 equal to the list lengths, and zero authority and additional
counts in bytes 8-11; encoding succeeds whenever the names are
pointer-free (the normal case) and the list lengths fit in 16 bits. -/
theorem c8_response_header_bytes : ∀ r : Response,
    (∀ q ∈ r.questions, q.qname.pointer = none) →
    (∀ a ∈ r.answers, a.name.pointer = none) →
    r.questions.length < 65536 →
    r.answers.length < 65536 →
    ∃ bytes,
      encodeResponse r = some bytes ∧
      bytes.getD 2 0 &&& 0x80 = 0x80 ∧
      bytes.getD 4 0 * 256 + bytes.getD 5 0 = r.questions.length ∧
      bytes.getD 6 0 * 256 + bytes.getD 7 0 = r.answers.length ∧
      bytes.getD 8 0 = 0 ∧ bytes.getD 9 0 = 0 ∧
      bytes.getD 10 0 = 0 ∧ bytes.getD 11 0 = 0 := by
  intro r hq ha hql hal
  obtain ⟨⟨qbytes, store, ptr⟩, hq1⟩ := encodeQuestions_ok r.questions [] 12 hq
  obtain ⟨⟨abytes, s2, p2⟩, ha1⟩ := encodeAnswers_ok r.answers store ptr ha
  have henc : encodeResponse r = some (responseHeader r ++ qbytes ++ abytes) := by
    simp [encodeResponse, hq1, ha1]
  have hgd : ∀ i, i < 12 →
      (responseHeader r ++ (qbytes ++ abytes)).getD i 0 = (responseHeader r).getD i 0 := by
    intro i hi
    exact List.getD_append _ _ _ _ (by simp [responseHeader]; omega)
  refine ⟨responseHeader r ++ qbytes ++ abytes, henc, ?_, ?_, ?_, ?_, ?_, ?_, ?_⟩
  · rw [List.append_assoc, hgd 2 (by omega)]
    simp only [responseHeader, List.getD_cons_zero, List.getD_cons_succ]
    exact land_lor_bit7 _ _ (land_lor_bit7 _ _ (land_lor_bit7 _ _
      (land_lor_bit7 _ _ (by decide))))
  · rw [List.append_assoc, hgd 4 (by omega), hgd 5 (by omega)]
    simp only [responseHeader, List.getD_cons_zero, List.getD_cons_succ]
    rw [Nat.mod_eq_of_lt hql]
    omega
  · rw [List.append_assoc, hgd 6 (by omega), hgd 7 (by omega)]
    simp only [responseHeader, List.getD_cons_zero, List.getD_cons_succ]
    rw [Nat.mod_eq_of_lt hal]
    omega
  · rw [List.append_assoc, hgd 8 (by omega)]
    simp [responseHeader]
  · rw [List.append_assoc, hgd 9 (by omega)]
    simp [responseHeader]
  · rw [List.append_assoc, hgd 10 (by omega)]
    simp [responseHeader]
  · rw [List.append_assoc, hgd 11 (by omega)]
    simp [responseHeader]

/-- C8 witness: the header facts at a concrete one-question,
no-answer response. -/
theorem c8_response_header_bytes_witness :
    ∃ bytes,
      encodeResponse
        ⟨7, .Query, false, false, true, false, .NoError,
          [⟨⟨[[97]], none⟩, .RRType .A, .RRClass .IN⟩], []⟩ = some bytes ∧
      bytes.getD 2 0 &&& 0x80 = 0x80 ∧
      bytes.getD 4 0 * 256 + bytes.getD 5 0 =
        (List.length [(⟨⟨[[97]], none⟩, .RRType .A, .RRClass .IN⟩ : Question)]) ∧
      bytes.getD 6 0 * 256 + bytes.getD 7 0 = (List.length ([] : List Answer)) ∧
      bytes.getD 8 0 = 0 ∧ bytes.getD 9 0 = 0 ∧
      bytes.getD 10 0 = 0 ∧ bytes.getD 11 0 = 0 :=
  c8_response_header_bytes
    ⟨7, .Query, false, false, true, false, .NoError,
      [⟨⟨[[97]], none⟩, .RRType .A, .RRClass .IN⟩], []⟩
    (by decide) (by decide) (by decide) (by decide)

/-! ## C9: the compression dictionary binds first occurrences only -/

/-- `Entry::Vacant` insertion never changes an existing binding. -/
theorem lookupStore_insertIfVacant (store : RefStore) (k ko : List (List Nat))
    (v vo : Nat) (h : lookupStore store k = some v) :
    lookupStore (insertIfVacant store ko vo) k = some v := by
  rw [insertIfVacant]
  cases ho : lookupStore store ko with
  | some _ => exact h
  | none =>
    have hne : ko ≠ k := by
      intro he
      rw [he, h] at ho
      cases ho
    rw [lookupStore, List.find?_cons_of_neg _ (by simpa using hne)]
    exact h

/-- After `Entry::Vacant` insertion the key is bound. -/
theorem lookupStore_insertIfVacant_self (store : RefStore) (k : List (List Nat))
    (v : Nat) : (lookupStore (insertIfVacant store k v) k).isSome := by
  rw [insertIfVacant]
  cases ho : lookupStore store k with
  | some _ => simp [ho]
  | none =>
    rw [lookupStore, List.find?_cons_of_pos _ (by simp)]
    rfl

/-- The suffix registration loop of the encoder never changes an
existing binding. -/
theorem registerVacant_preserves : ∀ (labels : List (List Nat)) (store : RefStore)
    (p : Nat) (k : List (List Nat)) (v : Nat),
    lookupStore store k = some v →
    lookupStore (registerVacant store labels p) k = some v := by
  intro labels
  induction labels with
  | nil => intro store p k v h; exact h
  | cons l rest ih =>
    intro store p k v h
    exact ih _ _ _ _ (lookupStore_insertIfVacant store k (l :: rest) v p h)

/-- After the registration loop, every nonempty suffix of the label
list is bound in the dictionary. -/
theorem registerVacant_registers : ∀ (labels : List (List Nat)) (store : RefStore)
    (p i : Nat), i < labels.length →
    (lookupStore (registerVacant store labels p) (labels.drop i)).isSome := by
  intro labels
  induction labels with
  | nil => intro store p i hi; simp at hi
  | cons l rest ih =>
    intro store p i hi
    cases i with
    | zero =>
      rw [List.drop_zero]
      obtain ⟨v, hv⟩ := Option.isSome_iff_exists.mp
        (lookupStore_insertIfVacant_self store (l :: rest) p)
      exact Option.isSome_iff_exists.mpr
        ⟨v, registerVacant_preserves rest _ _ _ v hv⟩
    | succ j =>
      rw [List.drop_succ_cons]
      exact ih _ _ j (by simpa using hi)

/-- Unfolding of the question encode loop at a head question whose
compression fails (the `unwrap` panic). -/
theorem encodeQuestions_cons_of_err {q : Question} {store : RefStore} {e : DnsError}
    (rest : List Question) (ptr : Nat) (h : q.compress store = .error e) :
    encodeQuestions (q :: rest) store ptr = none := by
  conv_lhs => rw [encodeQuestions]
  rw [h]

/-- Unfolding of the answer encode loop at a head answer whose
compression fails. -/
theorem encodeAnswers_cons_of_err {a : Answer} {store : RefStore} {e : DnsError}
    (rest : List Answer) (ptr : Nat) (h : a.compress store = .error e) :
    encodeAnswers (a :: rest) store ptr = none := by
  conv_lhs => rw [encodeAnswers]
  rw [h]

/-- The whole question encode loop never changes an existing binding of
the shared dictionary. -/
theorem encodeQuestions_preserves : ∀ (qs : List Question) (store : RefStore)
    (ptr : Nat) (out : List Nat × RefStore × Nat) (k : List (List Nat)) (v : Nat),
    encodeQuestions qs store ptr = some out →
    lookupStore store k = some v →
    lookupStore out.2.1 k = some v := by
  intro qs
  induction qs with
  | nil =>
    intro store ptr out k v he h
    obtain rfl : out = ([], store, ptr) := (Option.some.inj he).symm
    exact h
  | cons q rest ih =>
    intro store ptr out k v he h
    cases hc : q.compress store with
    | error e => rw [encodeQuestions_cons_of_err rest ptr hc] at he; cases he
    | ok cq =>
      rw [encodeQuestions_cons_of_ok rest ptr hc] at he
      cases hrec : encodeQuestions rest (registerVacant store q.qname.labels ptr)
          ((ptr + cq.to_vec.length) % 65536) with
      | none => rw [hrec] at he; cases he
      | some out2 =>
        obtain ⟨b2, s2, p2⟩ := out2
        rw [hrec] at he
        obtain rfl : out = (cq.to_vec ++ b2, s2, p2) := (Option.some.inj he).symm
        exact ih _ _ (b2, s2, p2) k v hrec
          (registerVacant_preserves q.qname.labels store ptr k v h)

/-- The whole answer encode loop never changes an existing binding of
the shared dictionary. -/
theorem encodeAnswers_preserves : ∀ (ans : List Answer) (store : RefStore)
    (ptr : Nat) (out : List Nat × RefStore × Nat) (k : List (List Nat)) (v : Nat),
    encodeAnswers ans store ptr = some out →
    lookupStore store k = some v →
    lookupStore out.2.1 k = some v := by
  intro ans
  induction ans with
  | nil =>
    intro store ptr out k v he h
    obtain rfl : out = ([], store, ptr) := (Option.some.inj he).symm
    exact h
  | cons a rest ih =>
    intro store ptr out k v he h
    cases hc : a.compress store with
    | error e => rw [encodeAnswers_cons_of_err rest ptr hc] at he; cases he
    | ok ca =>
      rw [encodeAnswers_cons_of_ok rest ptr hc] at he
      cases hrec : encodeAnswers rest (registerVacant store a.name.labels ptr)
          ((ptr + ca.to_vec.length) % 65536) with
      | none => rw [hrec] at he; cases he
      | some out2 =>
        obtain ⟨b2, s2, p2⟩ := out2
        rw [hrec] at he
        obtain rfl : out = (ca.to_vec ++ b2, s2, p2) := (Option.some.inj he).symm
        exact ih _ _ (b2, s2, p2) k v hrec
          (registerVacant_preserves a.name.labels store ptr k v h)

/-- C9: during Response encoding the shared dictionary only ever gains
bindings for suffixes that are not yet present (first occurrence wins):
a binding, once made, survives the per-name registration loop and the
full question and answer loops unchanged — a registered suffix is never
re-bound to a later offset — and after a name's registration loop every
nonempty suffix of its original label list is bound. -/
theorem c9_first_occurrence_wins :
    (∀ (labels : List (List Nat)) (store : RefStore) (p : Nat)
        (k : List (List Nat)) (v : Nat),
      lookupStore store k = some v →
      lookupStore (registerVacant store labels p) k = some v) ∧
    (∀ (labels : List (List Nat)) (store : RefStore) (p i : Nat),
      i < labels.length →
      (lookupStore (registerVacant store labels p) (labels.drop i)).isSome) ∧
    (∀ (qs : List Question) (store : RefStore) (ptr : Nat)
        (out : List Nat × RefStore × Nat) (k : List (List Nat)) (v : Nat),
      encodeQuestions qs store ptr = some out →
      lookupStore store k = some v →
      lookupStore out.2.1 k = some v) ∧
    (∀ (ans : List Answer) (store : RefStore) (ptr : Nat)
        (out : List Nat × RefStore × Nat) (k : List (List Nat)) (v : Nat),
      encodeAnswers ans store ptr = some out →
      lookupStore store k = some v →
      lookupStore out.2.1 k = some v) :=
  ⟨registerVacant_preserves, registerVacant_registers,
   encodeQuestions_preserves, encodeAnswers_preserves⟩

/-- C9 witness: a concrete binding (suffix `["a"]` at offset 5)
survives a registration loop that tries to register `["b"]` at a later
offset. -/
theorem c9_first_occurrence_wins_witness :
    lookupStore (registerVacant [([[97]], 5)] [[97]] 12) [[97]] = some 5 :=
  c9_first_occurrence_wins.1 [[97]] [([[97]], 5)] 12 [[97]] 5 (by decide)

/-! ## C3: which failures Query decoding propagates -/

/-- `Name::expand` can only fail with an unregistered-pointer error. -/
theorem name_expand_error_shape (n : Name) (refs : RefTable) (e : DnsError)
    (h : n.expand refs = .error e) : ∃ p, e = .unregisteredPointer p := by
  cases hp : n.pointer with
  | none => simp [Name.expand, hp] at h
  | some ptr =>
    cases hl : lookupRef refs ptr with
    | some s => simp [Name.expand, hp, hl] at h
    | none =>
      simp [Name.expand, hp, hl] at h
      exact ⟨ptr, h.symm⟩

/-- `Question::expand` can only fail with an unregistered-pointer
error. -/
theorem question_expand_error_shape (q : Question) (refs : RefTable) (e : DnsError)
    (h : q.expand refs = .error e) : ∃ p, e = .unregisteredPointer p := by
  cases hq : q.qname.expand refs with
  | ok n => simp [Question.expand, hq] at h
  | error e2 =>
    simp [Question.expand, hq] at h
    obtain rfl : e2 = e := h
    exact name_expand_error_shape q.qname refs e2 hq

/-- One-step unfolding of the question loop of `Query::try_from`. -/
theorem queryLoop_succ (value : List Nat) (qd ptr : Nat) (refs : RefTable) (q : Query) :
    queryLoop value (qd + 1) ptr refs q =
      if value.length ≤ ptr then some (.ok q)
      else
        match Question.tryFrom (value.drop ptr) with
        | none => none
        | some (.error _) => some (.ok q)
        | some (.ok question) =>
          match (if question.qname.pointer.isSome
                 then question.expand refs
                 else .ok question) with
          | .error e => some (.error e)
          | .ok expanded =>
            queryLoop value qd (ptr + question.len)
              ((ptr % 65536, expanded.qname.labels) ::
                regLoop refs expanded.qname.labels question.qname.labels.length
                  (ptr % 65536))
              { q with questions := q.questions ++ [expanded] } := by
  rfl

/-- Unfolding of the question loop when the question at the cursor
parses. -/
theorem queryLoop_succ_of_question_ok (value : List Nat) (qd ptr : Nat)
    (refs : RefTable) (q : Query) (question : Question)
    (hlen : ¬ value.length ≤ ptr)
    (hq : Question.tryFrom (value.drop ptr) = some (.ok question)) :
    queryLoop value (qd + 1) ptr refs q =
      match (if question.qname.pointer.isSome
             then question.expand refs
             else .ok question) with
      | .error e => some (.error e)
      | .ok expanded =>
        queryLoop value qd (ptr + question.len)
          ((ptr % 65536, expanded.qname.labels) ::
            regLoop refs expanded.qname.labels question.qname.labels.length
              (ptr % 65536))
          { q with questions := q.questions ++ [expanded] } := by
  rw [queryLoop_succ, if_neg hlen, hq]

/-- The question loop can only propagate an unregistered-pointer
error. -/
theorem queryLoop_error_shape : ∀ (value : List Nat) (qd ptr : Nat)
    (refs : RefTable) (q : Query) (e : DnsError),
    queryLoop value qd ptr refs q = some (.error e) →
    ∃ p, e = .unregisteredPointer p := by
  intro value qd
  induction qd with
  | zero =>
    intro ptr refs q e h
    exact absurd (Option.some.inj h) (by simp)
  | succ qd ih =>
    intro ptr refs q e h
    by_cases hlen : value.length ≤ ptr
    · rw [queryLoop_succ, if_pos hlen] at h
      exact absurd (Option.some.inj h) (by simp)
    · cases hq : Question.tryFrom (value.drop ptr) with
      | none =>
        rw [queryLoop_succ, if_neg hlen, hq] at h
        exact Option.noConfusion h
      | some res =>
        cases res with
        | error e2 =>
          rw [queryLoop_succ, if_neg hlen, hq] at h
          exact absurd (Option.some.inj h) (by simp)
        | ok question =>
          rw [queryLoop_succ_of_question_ok value qd ptr refs q question hlen hq] at h
          cases hexp : (if question.qname.pointer.isSome
              then question.expand refs
              else .ok question) with
          | error e2 =>
            rw [hexp] at h
            obtain rfl : e2 = e := Except.error.inj (Option.some.inj h)
            by_cases hp : question.qname.pointer.isSome
            · rw [if_pos hp] at hexp
              exact question_expand_error_shape question refs e2 hexp
            · rw [if_neg hp] at hexp
              exact Except.noConfusion hexp
          | ok expanded =>
            rw [hexp] at h
            exact ih _ _ _ e h

/-- C3 counterexample: a well-formed header followed by one question
whose name is a bare compression pointer to the (unregistered) offset 0;
the question itself parses, but its expansion fails and `Query::try_from`
propagates that failure as a hard error instead of returning the Query
accumulated so far. -/
theorem c3_expand_error_escapes :
    Query.tryFrom [0, 1, 0, 0, 0, 1, 0, 0, 0, 0, 0, 0, 0xc0, 0, 0, 1, 0, 1] =
      some (.error (.unregisteredPointer 0)) := by
  decide

/-- C3 amended: `Query::try_from` returns a hard error in exactly three
situations — buffer shorter than 2 bytes (`notEvenAnId`), response bit
set on byte 2 (`isResponse`), or a question that parsed successfully but
whose compression pointer fails to expand against the reference table
(`unregisteredPointer`, propagated by the `?` after `expand`); failures
of `Question::try_from` itself are absorbed: the loop stops and the
accumulated Query is returned `Ok`. -/
theorem c3_hard_error_classification : ∀ value : List Nat,
    (∀ e, Query.tryFrom value = some (.error e) →
      e = .notEvenAnId ∨ e = .isResponse ∨ ∃ p, e = .unregisteredPointer p) ∧
    (value.length < 2 → Query.tryFrom value = some (.error .notEvenAnId)) ∧
    (2 < value.length → Nat.land (value.getD 2 0) 0x80 ≠ 0 →
      Query.tryFrom value = some (.error .isResponse)) ∧
    (∀ (qd ptr : Nat) (refs : RefTable) (q : Query) (e : DnsError),
      ptr < value.length →
      Question.tryFrom (value.drop ptr) = some (.error e) →
      queryLoop value (qd + 1) ptr refs q = some (.ok q)) := by
  intro value
  refine ⟨?_, ?_, ?_, ?_⟩
  · intro e h
    by_cases h1 : value.length < 2
    · simp only [Query.tryFrom, if_pos h1] at h
      exact Or.inl (Except.error.inj (Option.some.inj h)).symm
    · by_cases h2 : 2 < value.length ∧ Nat.land (value.getD 2 0) 0x80 ≠ 0
      · simp only [Query.tryFrom, if_neg h1, if_pos h2] at h
        exact Or.inr (Or.inl (Except.error.inj (Option.some.inj h)).symm)
      · simp only [Query.tryFrom, if_neg h1, if_neg h2] at h
        by_cases h3 : 3 < value.length ∧ Nat.land (value.getD 3 0) 0xf0 ≠ 0
        · rw [if_pos h3] at h
          exact absurd (Option.some.inj h) (by simp)
        · rw [if_neg h3] at h
          by_cases h4 : value.length < 12
          · rw [if_pos h4] at h
            exact absurd (Option.some.inj h) (by simp)
          · rw [if_neg h4] at h
            exact Or.inr (Or.inr (queryLoop_error_shape value _ 12 [] _ e h))
  · intro h1
    simp only [Query.tryFrom, if_pos h1]
  · intro hgt hbit
    simp only [Query.tryFrom, if_neg (by omega : ¬ value.length < 2),
      if_pos (And.intro hgt hbit)]
  · intro qd ptr refs q e hlen hq
    rw [queryLoop_succ, if_neg (by omega), hq]

/-- C3 witness: the amended classification applied at the concrete
buffer of the counterexample, whose decode error is the unregistered
pointer 0. -/
theorem c3_hard_error_classification_witness :
    DnsError.unregisteredPointer 0 = .notEvenAnId ∨
    DnsError.unregisteredPointer 0 = .isResponse ∨
    ∃ p, DnsError.unregisteredPointer 0 = .unregisteredPointer p :=
  (c3_hard_error_classification [0, 1, 0, 0, 0, 1, 0, 0, 0, 0, 0, 0, 0xc0, 0, 0, 1, 0, 1]).1
    (.unregisteredPointer 0) (by decide)

/-! ## C10: Name.len equals encoded length -/

/-- C10: for every Name, `Name::len` equals the byte length of
`Name::to_vec`: the sum of (label length + 1) over the labels, plus 1
without a pointer or 2 with one. -/
theorem c10_len_eq_encoded_length : ∀ n : Name, n.len = n.to_vec.length := by
  intro n
  obtain ⟨labels, pointer⟩ := n
  simp only [Name.len, Name.to_vec, List.length_append, List.length_flatten, List.map_map]
  cases pointer <;> simp [Function.comp_def]

end DnsCodec
